import Mathlib

/-
Verification development for the tree-ensemble serialization format and its
deterministic evaluator in the PXI training scripts.

Embedding conventions:
- Python float64 values (leaf values, thresholds, base scores, feature values)
  are modeled as rationals (ℚ).  Every numeric literal appearing in the dumps
  and claims is exactly representable, and the operations the claims quantify
  over (strict comparison, addition) are modeled exactly.
- Python dicts keyed by node id are modeled as association lists
  (`List (Nat × PNode)`) with insert-or-overwrite semantics matching dict
  assignment; `dict.get(k, d)` becomes `(lookup k).getD d`.
- A feature vector (Python dict from feature name to float) is modeled as
  `String → Option ℚ`; `features.get(name, 0)` is `(features name).getD 0`.
- The recursive `build_tree` closure in `parse_xgb_tree_dump` carries no
  termination guard in the source; it is embedded with an explicit fuel
  parameter, where the outer `none` marks non-termination of the source
  recursion.  The fuel chosen by `parse_xgb_tree_dump` is shown sufficient
  whenever the reference graph reachable from node 0 is acyclic.
- The regex searches of the source (`re.match`/`re.search` with patterns for
  node ids, leaf values, split conditions, branch ids) are embedded as
  left-to-right scans performing maximal munch; on these patterns (digit runs,
  word-character runs and number literals followed by delimiters outside the
  repeated character class, with all trailing groups optional) maximal munch
  agrees with the backtracking semantics of the Python regexes.
-/

/-- Canonical tree node produced by `parse_xgb_tree_dump` (the nested dict
with keys `nodeid`/`leaf` for leaves and
`nodeid, depth, split, split_condition, yes, no, missing, children` for split
nodes).  An empty `children` list models a dict in which the `children` key is
absent, which the evaluator treats identically via `node.get('children', [])`. -/
inductive TreeNode where
  | leaf (nodeid : Nat) (value : ℚ)
  | split (nodeid depth : Nat) (splitFeat : String) (split_condition : ℚ)
      (yes no missing : Nat) (children : List TreeNode)
deriving Repr

/-- The `nodeid` key, present on both node shapes. -/
def TreeNode.nodeid : TreeNode → Nat
  | .leaf i _ => i
  | .split i _ _ _ _ _ _ _ => i

/-- Flat per-line node record held in the `nodes` dict of
`parse_xgb_tree_dump` before tree assembly. -/
inductive PNode where
  | leaf (nodeid : Nat) (value : ℚ)
  | split (nodeid depth : Nat) (splitFeat : String) (split_condition : ℚ)
      (yes no missing : Nat)
deriving Repr

/-- Digits-to-Nat conversion (`int(...)` on a `\d+` regex group). -/
def natOfDigits (ds : List Char) : Nat :=
  ds.foldl (fun a c => a * 10 + (c.toNat - 48)) 0

/-- Consume a literal character sequence, returning the remainder. -/
def dropLit : List Char → List Char → Option (List Char)
  | [], l => some l
  | c :: cs, x :: xs => if x = c then dropLit cs xs else none
  | _ :: _, [] => none

/-- Parse the number regex `[+-]?\d+\.?\d*(?:e[+-]?\d+)?` at the head of the
input (maximal munch), returning the exact rational value and the remainder.
`float(...)` on the matched group is modeled exactly in ℚ. -/
def parseNumber (l : List Char) : Option (ℚ × List Char) :=
  let sp : ℚ × List Char :=
    match l with
    | '+' :: r => (1, r)
    | '-' :: r => (-1, r)
    | _ => (1, l)
  let ds := sp.2.takeWhile Char.isDigit
  let l2 := sp.2.dropWhile Char.isDigit
  if ds.isEmpty then none else
  let fp : List Char × List Char :=
    match l2 with
    | '.' :: r => (r.takeWhile Char.isDigit, r.dropWhile Char.isDigit)
    | _ => ([], l2)
  let ep : ℤ × List Char :=
    match fp.2 with
    | 'e' :: r =>
      let esp : ℤ × List Char :=
        match r with
        | '+' :: r2 => (1, r2)
        | '-' :: r2 => (-1, r2)
        | _ => (1, r)
      let eds := esp.2.takeWhile Char.isDigit
      if eds.isEmpty then (0, fp.2)
      else (esp.1 * (natOfDigits eds : ℤ), esp.2.dropWhile Char.isDigit)
    | _ => (0, fp.2)
  let mantissa : ℚ := (natOfDigits ds : ℚ) + (natOfDigits fp.1 : ℚ) / (10 : ℚ) ^ fp.1.length
  some (sp.1 * mantissa * (10 : ℚ) ^ ep.1, ep.2)

/-- Try `leaf=<number>` at the current position. -/
def tryLeafAt (l : List Char) : Option ℚ :=
  match dropLit ['l', 'e', 'a', 'f', '='] l with
  | some r => (parseNumber r).map Prod.fst
  | none => none

/-- Embeds `re.search(r'leaf=([+-]?\d+\.?\d*(?:e[+-]?\d+)?)', rest)`: the
leftmost position at which the pattern matches. -/
def searchLeaf : List Char → Option ℚ
  | [] => none
  | c :: rest =>
    match tryLeafAt (c :: rest) with
    | some v => some v
    | none => searchLeaf rest

/-- Python `\w` on `str` arguments, restricted to ASCII as in the dumps. -/
def isWordChar (c : Char) : Bool := c.isAlphanum || c = '_'

/-- Try `[<word><<number>]` at the current position. -/
def trySplitAt (l : List Char) : Option (String × ℚ) :=
  match l with
  | '[' :: r =>
    let w := r.takeWhile isWordChar
    let r1 := r.dropWhile isWordChar
    if w.isEmpty then none else
    match r1 with
    | '<' :: r2 =>
      match parseNumber r2 with
      | some (q, r3) =>
        match r3 with
        | ']' :: _ => some (String.mk w, q)
        | _ => none
      | none => none
    | _ => none
  | _ => none

/-- Embeds `re.search(r'\[(\w+)<([+-]?\d+\.?\d*(?:e[+-]?\d+)?)\]', rest)`. -/
def searchSplit : List Char → Option (String × ℚ)
  | [] => none
  | c :: rest =>
    match trySplitAt (c :: rest) with
    | some v => some v
    | none => searchSplit rest

/-- Try `yes=<d>,no=<d>,missing=<d>` at the current position. -/
def tryBranchAt (l : List Char) : Option (Nat × Nat × Nat) :=
  match dropLit ['y', 'e', 's', '='] l with
  | none => none
  | some r1 =>
    let d1 := r1.takeWhile Char.isDigit
    let r2 := r1.dropWhile Char.isDigit
    if d1.isEmpty then none else
    match dropLit [',', 'n', 'o', '='] r2 with
    | none => none
    | some r3 =>
      let d2 := r3.takeWhile Char.isDigit
      let r4 := r3.dropWhile Char.isDigit
      if d2.isEmpty then none else
      match dropLit [',', 'm', 'i', 's', 's', 'i', 'n', 'g', '='] r4 with
      | none => none
      | some r5 =>
        let d3 := r5.takeWhile Char.isDigit
        if d3.isEmpty then none
        else some (natOfDigits d1, natOfDigits d2, natOfDigits d3)

/-- Embeds `re.search(r'yes=(\d+),no=(\d+),missing=(\d+)', rest)`. -/
def searchBranch : List Char → Option (Nat × Nat × Nat)
  | [] => none
  | c :: rest =>
    match tryBranchAt (c :: rest) with
    | some v => some v
    | none => searchBranch rest

/-- Python `str.strip()` on a char list. -/
def stripList (l : List Char) : List Char :=
  ((l.dropWhile Char.isWhitespace).reverse.dropWhile Char.isWhitespace).reverse

/-- Embeds `len(line) - len(line.lstrip('\t'))`: the leading run of tabs. -/
def leadingTabs (l : List Char) : Nat :=
  (l.takeWhile (fun c => c = '\t')).length

/-- Embeds `re.match(r'^(\d+):', line)`: a leading digit run immediately
followed by a colon; yields the node id and the remainder of the line. -/
def matchNodeId (l : List Char) : Option (Nat × List Char) :=
  let ds := l.takeWhile Char.isDigit
  if ds.isEmpty then none else
  match l.dropWhile Char.isDigit with
  | ':' :: rest => some (natOfDigits ds, rest)
  | _ => none

/-- One iteration of the line loop of `parse_xgb_tree_dump`: depth from the
leading tabs of the raw line, node id from the stripped line, then the leaf
check first and the split/branch pair second, exactly as in the source.
`none` models the `continue` paths (no id match, or an internal line whose
split or branch regex fails, which stores nothing). -/
def parseLine (line : List Char) : Option (Nat × PNode) :=
  let indent := leadingTabs line
  let stripped := stripList line
  match matchNodeId stripped with
  | none => none
  | some (nodeid, rest) =>
    match searchLeaf rest with
    | some v => some (nodeid, .leaf nodeid v)
    | none =>
      match searchSplit rest, searchBranch rest with
      | some (feat, thr), some (y, n, m) =>
        some (nodeid, .split nodeid indent feat thr y n m)
      | _, _ => none

/-- Embeds `nodes[nodeid] = {...}`: dict assignment, overwriting in place an existing
entry for the key and appending otherwise (insertion order preserved). -/
def dictInsert (d : List (Nat × PNode)) (k : Nat) (v : PNode) : List (Nat × PNode) :=
  if (d.lookup k).isSome then d.map (fun p => if p.1 = k then (k, v) else p)
  else d ++ [(k, v)]

/-- The flat `nodes` dict built by the line loop over
`tree_str.strip().split('\n')`. -/
def parseNodes (s : List Char) : List (Nat × PNode) :=
  ((stripList s).splitOn '\n').foldl
    (fun d line =>
      match parseLine line with
      | some kv => dictInsert d kv.1 kv.2
      | none => d) []

/-- Children-key materialization: a present subtree contributes one element. -/
def optToList : Option TreeNode → List TreeNode
  | none => []
  | some t => [t]

/-- Assemble a split node from the two child recursion results, propagating
the fuel-exhaustion marker: the source appends the `yes` subtree and then the
`no` subtree to `children`, each only when the recursive call produced one. -/
def combineChildren (i d : Nat) (f : String) (c : ℚ) (y n m : Nat)
    (ry rn : Option (Option TreeNode)) : Option (Option TreeNode) :=
  match ry, rn with
  | some a, some b => some (some (.split i d f c y n m (optToList a ++ optToList b)))
  | _, _ => none

/-- The recursive `build_tree` closure of `parse_xgb_tree_dump`, with an
explicit fuel parameter standing for the unbounded Python recursion.  Outer
`none` marks fuel exhaustion (the source recursion would still be running);
`some none` is the source returning `None` (id absent from the dict);
`some (some t)` is the source returning the assembled node.  A child id is
recursed into only when present in the dict (`if node['yes'] in nodes:`), and
an absent child id is silently skipped, exactly as in the source. -/
def build_tree : Nat → List (Nat × PNode) → Nat → Option (Option TreeNode)
  | 0, _, _ => none
  | fuel + 1, nodes, nodeid =>
    match nodes.lookup nodeid with
    | none => some none
    | some (.leaf i v) => some (some (.leaf i v))
    | some (.split i d f c y n m) =>
      combineChildren i d f c y n m
        (if (nodes.lookup y).isSome then build_tree fuel nodes y else some none)
        (if (nodes.lookup n).isSome then build_tree fuel nodes n else some none)

/-- Embeds `parse_xgb_tree_dump(tree_str, feature_names)`: build the flat node dict
from the lines, then assemble the tree from id 0.  The fuel
`(parseNodes ...).length + 1` is proved sufficient for every acyclic node
dict (see the termination theorem); outer `none` would mean the source
recursion diverges.  `feature_names` is accepted and ignored exactly as in
the source (feature tokens are kept as `f0`, `f1`, ...). -/
def parse_xgb_tree_dump (tree_str : String) (feature_names : List String) :
    Option (Option TreeNode) :=
  let nodes := parseNodes tree_str.data
  build_tree (nodes.length + 1) nodes 0

mutual

/-- Embeds `predict_tree(node, features)` from `train_and_export`: a leaf returns its
value; a split fetches the feature with default 0, compares with strict `<`
against `split_condition`, selects `yes` on true and `no` on false, then scans
`children` in order for the first child whose `nodeid` equals the target and
recurses; if no child matches it returns 0.  The `missing` field is never
consulted. -/
def predict_tree (node : TreeNode) (features : String → Option ℚ) : ℚ :=
  match node with
  | .leaf _ v => v
  | .split _ _ s c y n _ cs =>
    let feat_val := (features s).getD 0
    let target_id := if feat_val < c then y else n
    predict_children cs target_id features

/-- The `for child in node.get('children', [])` loop of `predict_tree`. -/
def predict_children (cs : List TreeNode) (target_id : Nat)
    (features : String → Option ℚ) : ℚ :=
  match cs with
  | [] => 0
  | child :: rest =>
    if child.nodeid = target_id then predict_tree child features
    else predict_children rest target_id features

end

/-- One horizon entry of the exported artifact: `{'b': base_score, 't': trees}`. -/
structure HorizonModel where
  b : ℚ
  t : List TreeNode
deriving Repr

/-- The prediction loop of `train_and_export` (lines 315-317): start from the
horizon's `b` and add each tree's `predict_tree` contribution in order. -/
def predict_horizon (hm : HorizonModel) (features : String → Option ℚ) : ℚ :=
  hm.t.foldl (fun acc tr => acc + predict_tree tr features) hm.b

/-- The exported artifact `model_json`:
`{'v': ..., 'f': feature_cols, 'm': {horizon: {'b': ..., 't': ...}}}`. -/
structure ModelJson where
  v : String
  f : List String
  m : List (String × HorizonModel)
deriving Repr

/-- Ensemble evaluation for one horizon of the artifact:
`model_json['m'][h]['b']` plus the per-tree loop; `none` when the horizon
label is absent. -/
def predict_model (art : ModelJson) (horizon : String)
    (features : String → Option ℚ) : Option ℚ :=
  (art.m.lookup horizon).map (fun hm => predict_horizon hm features)

/-- Decode failures of the artifact decoder specified in the error taxonomy. -/
inductive DecodeError where
  | unsupportedSchemaVersion
  | malformedArtifact
deriving Repr, DecidableEq

/-- Modelled from the spec: the repository contains only the artifact
encoders (`train_and_export` writes `model_json` with its embedded version
tag `'v'`); the decoder lives in the downstream inference runtime outside
the repository.  Per the spec, decoding first checks the embedded
`schema_version` against the versions the decoder implements and fails with
`UnsupportedSchemaVersion` otherwise, producing no artifact at all. -/
def decodeArtifact (supported : List String) (raw : ModelJson) :
    Except DecodeError ModelJson :=
  if raw.v ∈ supported then Except.ok raw
  else Except.error DecodeError.unsupportedSchemaVersion

/-- Evaluation over a decode result: a failed decode yields no prediction
for any horizon or feature vector (no evaluation is attempted). -/
def predictDecoded (d : Except DecodeError ModelJson) (horizon : String)
    (features : String → Option ℚ) : Option ℚ :=
  match d with
  | Except.error _ => none
  | Except.ok art => predict_model art horizon features

/-- One per-horizon entry of the verbose export of `train_xgboost`
(`export_model_to_json`): keys `type, version, n_estimators, base_score,
feature_names, trees`. -/
structure VerboseModelEntry where
  type : String
  version : String
  n_estimators : Nat
  base_score : ℚ
  feature_names : List String
  trees : List TreeNode
deriving Repr

/-- The verbose export dict of `train_xgboost.main`: keys `created_at,
feature_names, models, metrics`.  The `metrics` dict is free-text/number
metadata not affecting prediction; it is carried here opaquely. -/
structure VerboseExport where
  created_at : String
  feature_names : List String
  models : List (String × VerboseModelEntry)
  metrics : String
deriving Repr

/-- The compact re-encoding built by `train_xgboost.main` (lines 369-379):
`{'v': '1.0', 'f': feature_names, 'm': {name: {'b': base_score, 't': trees}}}`.
It drops `created_at`, `metrics` and the per-entry `type`, `version`,
`n_estimators`, `feature_names`. -/
def toCompactExport (e : VerboseExport) : ModelJson :=
  { v := "1.0"
    f := e.feature_names
    m := e.models.map (fun nm => (nm.1, { b := nm.2.base_score, t := nm.2.trees })) }

/-- The canonical Tree Ensemble Artifact restricted to the fields that affect
prediction output: the ordered feature-name list and, per horizon, the base
score and the ordered tree sequence. -/
structure CanonicalArtifact where
  feature_names : List String
  horizons : List (String × HorizonModel)
deriving Repr

/-- Modelled from the spec: decoding the verbose form into the canonical
artifact (the decoder is absent from the repository; the verbose shape is
the one written by `train_xgboost.main`). -/
def decodeVerbose (e : VerboseExport) : CanonicalArtifact :=
  { feature_names := e.feature_names
    horizons := e.models.map (fun nm => (nm.1, { b := nm.2.base_score, t := nm.2.trees })) }

/-- Modelled from the spec: decoding the compact form into the canonical
artifact (the decoder is absent from the repository; the compact shape is
the one written by `train_xgboost.main` and `train_and_export`). -/
def decodeCompact (mj : ModelJson) : CanonicalArtifact :=
  { feature_names := mj.f, horizons := mj.m }

/-- Ensemble evaluation against the canonical artifact. -/
def canonPredict (c : CanonicalArtifact) (horizon : String)
    (features : String → Option ℚ) : Option ℚ :=
  (c.horizons.lookup horizon).map (fun hm => predict_horizon hm features)

/-- One recursion step of `build_tree`: from the node stored under `a` (which
must be a split node) to a child id `b` named by its `yes` or `no` field,
restricted to child ids present in the dict — exactly the guarded recursive
calls the source makes. -/
def stepTo (nodes : List (Nat × PNode)) (a b : Nat) : Prop :=
  match nodes.lookup a with
  | some (.split _ _ _ _ y n _) => (b = y ∨ b = n) ∧ (nodes.lookup b).isSome
  | _ => False

/-- Paths of the reference graph starting at node id 0, recorded with the
full vertex list (head 0, last element the current node). -/
inductive PathFrom0 (nodes : List (Nat × PNode)) : List Nat → Nat → Prop where
  | base : PathFrom0 nodes [0] 0
  | snoc {p : List Nat} {a b : Nat} (hp : PathFrom0 nodes p a)
      (hs : stepTo nodes a b) : PathFrom0 nodes (p ++ [b]) b

/-- Acyclicity of the yes/no reference graph reachable from node id 0: no
path starting at 0 ever revisits a vertex.  For a finite directed graph this
is equivalent to the subgraph reachable from 0 containing no cycle (a cycle
reachable from 0 yields a repeating path from 0, and a repeat on a path from
0 exhibits a cycle reachable from 0). -/
def AcyclicFrom0 (nodes : List (Nat × PNode)) : Prop :=
  ∀ (p : List Nat) (nid : Nat), PathFrom0 nodes p nid → p.Nodup

/-- Failing input for the missing-value routing claim: split on `f0` with
threshold -5, `yes=1, no=2, missing=1`, children leaf 1 (value -3) and
leaf 2 (value 4). -/
def exTreeC1 : TreeNode :=
  .split 0 0 ("f0") (-5) 1 2 1 [.leaf 1 (-3), .leaf 2 4]

/-- Split tree used to witness threshold-equality routing: split on `f0` with
threshold 10, `yes=1, no=2, missing=1`. -/
def exTreeC2 : TreeNode :=
  .split 0 0 ("f0") 10 1 2 1 [.leaf 1 (-3), .leaf 2 4]

/-- Feature vector supplying `f0 = 10`, exactly the threshold of `exTreeC2`. -/
def exFeatC2 : String → Option ℚ := fun k => if k = "f0" then some 10 else none

/-- Concrete single-horizon artifact used to witness the ensemble sum. -/
def exArtC3 : ModelJson :=
  { v := "2.1", f := ["f0"], m := [("7d", { b := 1/5, t := [.leaf 0 (3/2)] })] }

/-- Artifact carrying a schema version no decoder supports. -/
def exBadArt : ModelJson := { v := "9.9", f := [], m := [] }

/-- Acyclic three-node dict (root split with two leaf children) used to
witness build_tree termination. -/
def exNodesC10 : List (Nat × PNode) :=
  [(0, .split 0 0 ("f0") 10 1 2 1), (1, .leaf 1 (-3)), (2, .leaf 2 4)]

lemma foldl_add_sum (g : TreeNode → ℚ) :
    ∀ (l : List TreeNode) (init : ℚ),
      l.foldl (fun acc tr => acc + g tr) init = init + (l.map g).sum := by
  intro l
  induction l with
  | nil => intro init; simp
  | cons t rest ih => intro init; simp [ih, add_assoc]

/-- C1: the claim asserts that an absent (or explicitly-missing) feature at a
split node is routed along `missing_id`.  The code does the opposite: it has
no notion of an explicitly-missing mark, substitutes 0 for an absent feature
and compares numerically, and never reads the `missing` field at all.  On the
failing input (split on `f0` with threshold -5, `yes=1, no=2, missing=1`,
feature vector not supplying `f0`) the code compares 0 < -5, follows `no` and
returns leaf 2's value 4, while `missing_id = 1` names the leaf of value -3.
The second conjunct shows the `missing` field is never consulted by the
evaluator on any input. -/
theorem c1_missing_feature_not_routed_to_missing_branch :
    (predict_tree exTreeC1 (fun _ => none) = 4 ∧
      predict_children [.leaf 1 (-3), .leaf 2 4] 1 (fun _ => none) = -3) ∧
    ∀ (i d m1 m2 : Nat) (s : String) (c : ℚ) (y n : Nat) (cs : List TreeNode)
      (features : String → Option ℚ),
      predict_tree (.split i d s c y n m1 cs) features =
        predict_tree (.split i d s c y n m2 cs) features := by
  refine ⟨⟨by with_unfolding_all rfl, by with_unfolding_all rfl⟩, ?_⟩
  intro i d m1 m2 s c y n cs features
  simp only [predict_tree]

/-- C2: at a split node whose feature value is supplied and equals the
threshold exactly, the strict `<` comparison fails and the evaluator
continues with the `no` branch id (never `yes`).  Determinism across
repeated calls is immediate: `predict_tree` is a pure function. -/
theorem c2_threshold_equal_goes_no (i d y n m : Nat) (s : String) (c : ℚ)
    (cs : List TreeNode) (features : String → Option ℚ)
    (h : features s = some c) :
    predict_tree (.split i d s c y n m cs) features =
      predict_children cs n features := by
  simp only [predict_tree, h, Option.getD_some]
  rw [if_neg (lt_irrefl c)]

/-- Witness for C2 at the concrete split `0:[f0<10] yes=1,no=2,missing=1`
with `f0 = 10` supplied: the scan target is the `no` id 2. -/
theorem c2_threshold_equal_goes_no_witness :
    predict_tree exTreeC2 exFeatC2 =
      predict_children [.leaf 1 (-3), .leaf 2 4] 2 exFeatC2 :=
  c2_threshold_equal_goes_no 0 0 1 2 1 ("f0") 10 [.leaf 1 (-3), .leaf 2 4] exFeatC2 rfl

/-- C3: for any artifact, any horizon present in it and any feature vector,
the ensemble prediction is exactly `base_score` plus the sum of the per-tree
contributions over the horizon's tree sequence — the fold of the source's
accumulation loop equals base plus sum, and no further transformation (in
particular no sigmoid) is applied. -/
theorem c3_prediction_is_base_plus_sum (art : ModelJson) (horizon : String)
    (features : String → Option ℚ) (hm : HorizonModel)
    (hl : art.m.lookup horizon = some hm) :
    predict_model art horizon features =
      some (hm.b + (hm.t.map (fun tr => predict_tree tr features)).sum) := by
  unfold predict_model
  rw [hl]
  simp only [Option.map_some']
  unfold predict_horizon
  rw [foldl_add_sum]

/-- Witness for C3 on a one-stump artifact at horizon `7d`. -/
theorem c3_prediction_is_base_plus_sum_witness :
    predict_model exArtC3 ("7d") (fun _ => none) =
      some ((1/5 : ℚ) +
        (([TreeNode.leaf 0 (3/2)]).map
          (fun tr => predict_tree tr (fun _ => none))).sum) :=
  c3_prediction_is_base_plus_sum exArtC3 ("7d") (fun _ => none)
    { b := 1/5, t := [.leaf 0 (3/2)] } rfl

/-- C4: parsing the one-line dump `0:leaf=1.5` yields the single leaf node
`{id: 0, value: 1.5}`; a stump evaluates to its leaf value on every feature
vector; and with base score 0.2 and the one-stump tree sequence the ensemble
prediction is 1.7. -/
theorem c4_stump_parse_eval_and_sum :
    parse_xgb_tree_dump ("0:leaf=1.5") [] = some (some (.leaf 0 (3/2))) ∧
    (∀ (i : Nat) (v : ℚ) (features : String → Option ℚ),
        predict_tree (.leaf i v) features = v) ∧
    ∀ features : String → Option ℚ,
        predict_horizon { b := 1/5, t := [.leaf 0 (3/2)] } features = 17/10 := by
  refine ⟨by with_unfolding_all rfl,
    fun i v features => by simp [predict_tree],
    fun features => ?_⟩
  simp only [predict_horizon, List.foldl_cons, List.foldl_nil, predict_tree]
  norm_num

/-- C5: the claim asserts that a dump whose split references an id absent
from the flat mapping is rejected with `MalformedDump`.  The code instead
silently omits the unresolved child: on the dump
`0:[f0<10] yes=1,no=2,missing=1` / `1:leaf=-3.0` (node 2 dangling), parsing
returns a split node whose children sequence holds only leaf 1 — no error. -/
theorem c5_dangling_child_silently_omitted :
    parse_xgb_tree_dump ("0:[f0<10] yes=1,no=2,missing=1\n1:leaf=-3.0") [] =
      some (some (.split 0 0 ("f0") 10 1 2 1 [.leaf 1 (-3)])) := by
  with_unfolding_all rfl

/-- C6: the claim asserts that two dump lines carrying the same node id are
rejected with `MalformedDump`.  The code instead lets the later line
overwrite the earlier node in the dict: on `0:leaf=1.0` / `0:leaf=2.0`
parsing returns the leaf of value 2.0. -/
theorem c6_duplicate_id_last_line_wins :
    parse_xgb_tree_dump ("0:leaf=1.0\n0:leaf=2.0") [] =
      some (some (.leaf 0 2)) := by
  with_unfolding_all rfl

/-- C7: the claim asserts that an evaluation reaching a split node whose
selected branch id resolves to no child aborts with a tagged
internal-consistency error.  The code instead silently returns the numeric
result 0: on the split `0:[f0<10] yes=1,no=2,missing=1` with only child
leaf 1 present and `f0 = 15` (selecting the absent `no` child 2), the
evaluator returns 0. -/
theorem c7_unresolved_branch_returns_zero :
    predict_tree (.split 0 0 ("f0") 10 1 2 1 [.leaf 1 (-3)])
      (fun k => if k = "f0" then some 15 else none) = 0 := by
  with_unfolding_all rfl

/-- C8: decoding an artifact whose embedded schema version is not one the
decoder implements fails with `UnsupportedSchemaVersion`, no artifact value
is produced, and no evaluation is attempted against the failed decode
result (every prediction through it is `none`). -/
theorem c8_unsupported_version_rejected (supported : List String)
    (raw : ModelJson) (h : raw.v ∉ supported) :
    decodeArtifact supported raw =
      Except.error DecodeError.unsupportedSchemaVersion ∧
    ∀ (horizon : String) (features : String → Option ℚ),
      predictDecoded (decodeArtifact supported raw) horizon features = none := by
  have hd : decodeArtifact supported raw =
      Except.error DecodeError.unsupportedSchemaVersion := by
    unfold decodeArtifact
    rw [if_neg h]
  exact ⟨hd, fun horizon features => by rw [hd]; rfl⟩

/-- Witness for C8: version `9.9` against a decoder implementing `2.1`. -/
theorem c8_unsupported_version_rejected_witness :
    decodeArtifact ["2.1"] exBadArt =
      Except.error DecodeError.unsupportedSchemaVersion ∧
    ∀ (horizon : String) (features : String → Option ℚ),
      predictDecoded (decodeArtifact ["2.1"] exBadArt) horizon features = none :=
  c8_unsupported_version_rejected ["2.1"] exBadArt (by decide)

/-- C9: for every verbose export, re-encoding it in the size-minimized
compact form and decoding both forms to the canonical artifact yields
identical values on every prediction-affecting field (feature-name order,
and per horizon the base score and tree sequence; only `created_at`,
`metrics` and per-entry `type`/`version`/`n_estimators` metadata are
dropped), and hence identical predictions for every horizon on every
feature vector. -/
theorem c9_compact_roundtrip_lossless (e : VerboseExport) :
    decodeCompact (toCompactExport e) = decodeVerbose e ∧
    ∀ (horizon : String) (features : String → Option ℚ),
      canonPredict (decodeCompact (toCompactExport e)) horizon features =
        canonPredict (decodeVerbose e) horizon features := by
  have h : decodeCompact (toCompactExport e) = decodeVerbose e := rfl
  exact ⟨h, fun horizon features => by rw [h]⟩

lemma mem_keys_of_lookup_isSome {nodes : List (Nat × PNode)} {k : Nat}
    (h : (nodes.lookup k).isSome) : k ∈ nodes.map Prod.fst := by
  induction nodes with
  | nil => simp [List.lookup] at h
  | cons hd tl ih =>
    obtain ⟨k0, v0⟩ := hd
    by_cases hk : k = k0
    · simp [hk]
    · have e : (k == k0) = false := beq_eq_false_iff_ne.mpr hk
      have h2 : (tl.lookup k).isSome := by
        simpa [List.lookup, e] using h
      rw [List.map_cons]
      exact List.mem_cons_of_mem _ (ih h2)

lemma stepTo_target_isSome {nodes : List (Nat × PNode)} {a b : Nat}
    (h : stepTo nodes a b) : (nodes.lookup b).isSome := by
  unfold stepTo at h
  split at h
  · exact h.2
  · exact h.elim

lemma pathFrom0_mem {nodes : List (Nat × PNode)} {p : List Nat} {nid : Nat}
    (h : PathFrom0 nodes p nid) :
    ∀ x ∈ p, x = 0 ∨ x ∈ nodes.map Prod.fst := by
  induction h with
  | base =>
    intro x hx
    rw [List.mem_singleton] at hx
    exact Or.inl hx
  | snoc hp hs ih =>
    intro x hx
    rw [List.mem_append, List.mem_singleton] at hx
    cases hx with
    | inl hx => exact ih x hx
    | inr hx =>
      subst hx
      exact Or.inr (mem_keys_of_lookup_isSome (stepTo_target_isSome hs))

lemma pathFrom0_length_le {nodes : List (Nat × PNode)} {p : List Nat}
    {nid : Nat} (acy : AcyclicFrom0 nodes) (h : PathFrom0 nodes p nid) :
    p.length ≤ nodes.length + 1 := by
  have hnd : p.Nodup := acy p nid h
  have hsub : p.toFinset ⊆ insert 0 (nodes.map Prod.fst).toFinset := by
    intro x hx
    rw [List.mem_toFinset] at hx
    rcases pathFrom0_mem h x hx with h0 | hk
    · rw [h0]; exact Finset.mem_insert_self _ _
    · exact Finset.mem_insert_of_mem (List.mem_toFinset.mpr hk)
  have h1 : p.toFinset.card = p.length := List.toFinset_card_of_nodup hnd
  have h2 : p.toFinset.card ≤ (insert 0 (nodes.map Prod.fst).toFinset).card :=
    Finset.card_le_card hsub
  have h3 : (insert 0 (nodes.map Prod.fst).toFinset).card ≤
      (nodes.map Prod.fst).toFinset.card + 1 := Finset.card_insert_le _ _
  have h4 : (nodes.map Prod.fst).toFinset.card ≤ (nodes.map Prod.fst).length :=
    (nodes.map Prod.fst).toFinset_card_le
  rw [List.length_map] at h4
  omega

lemma combineChildren_isSome_iff {i d : Nat} {f : String} {c : ℚ}
    {y n m : Nat} {ry rn : Option (Option TreeNode)} :
    (combineChildren i d f c y n m ry rn).isSome = (ry.isSome && rn.isSome) := by
  cases ry <;> cases rn <;> rfl

lemma build_tree_isSome_of_path {nodes : List (Nat × PNode)}
    (acy : AcyclicFrom0 nodes) :
    ∀ (fuel : Nat) {p : List Nat} {nid : Nat}, PathFrom0 nodes p nid →
      nodes.length + 2 ≤ fuel + p.length → (build_tree fuel nodes nid).isSome := by
  intro fuel
  induction fuel with
  | zero =>
    intro p nid hp hlen
    have := pathFrom0_length_le acy hp
    omega
  | succ fuel ih =>
    intro p nid hp hlen
    cases hl : nodes.lookup nid with
    | none => simp [build_tree, hl]
    | some pn =>
      cases pn with
      | leaf i v => simp [build_tree, hl]
      | split i d f c y n m =>
        have hm2 : build_tree (fuel + 1) nodes nid =
            combineChildren i d f c y n m
              (if (nodes.lookup y).isSome then build_tree fuel nodes y else some none)
              (if (nodes.lookup n).isSome then build_tree fuel nodes n else some none) := by
          simp [build_tree, hl]
        rw [hm2, combineChildren_isSome_iff, Bool.and_eq_true]
        constructor
        · by_cases hy : (nodes.lookup y).isSome
          · rw [if_pos hy]
            refine ih (PathFrom0.snoc hp ?_) ?_
            · unfold stepTo; rw [hl]; exact ⟨Or.inl rfl, hy⟩
            · rw [List.length_append, List.length_singleton]; omega
          · rw [if_neg hy]; rfl
        · by_cases hn : (nodes.lookup n).isSome
          · rw [if_pos hn]
            refine ih (PathFrom0.snoc hp ?_) ?_
            · unfold stepTo; rw [hl]; exact ⟨Or.inr rfl, hn⟩
            · rw [List.length_append, List.length_singleton]; omega
          · rw [if_neg hn]; rfl

lemma branch_mono {nodes : List (Nat × PNode)} {f1 f2 cid : Nat}
    (ihc : (build_tree f1 nodes cid).isSome →
      build_tree f2 nodes cid = build_tree f1 nodes cid)
    (hs : (if (nodes.lookup cid).isSome then build_tree f1 nodes cid
      else some none).isSome) :
    (if (nodes.lookup cid).isSome then build_tree f2 nodes cid else some none) =
      (if (nodes.lookup cid).isSome then build_tree f1 nodes cid else some none) := by
  by_cases hc : (nodes.lookup cid).isSome
  · rw [if_pos hc] at hs
    rw [if_pos hc, if_pos hc]
    exact ihc hs
  · rw [if_neg hc, if_neg hc]

lemma build_tree_mono {nodes : List (Nat × PNode)} :
    ∀ (f1 : Nat) {f2 nid : Nat}, f1 ≤ f2 → (build_tree f1 nodes nid).isSome →
      build_tree f2 nodes nid = build_tree f1 nodes nid := by
  intro f1
  induction f1 with
  | zero =>
    intro f2 nid _ hs
    exact absurd hs (by simp [build_tree])
  | succ f1 ih =>
    intro f2 nid hle hs
    obtain ⟨f2, rfl⟩ : ∃ k, f2 = k + 1 := ⟨f2 - 1, by omega⟩
    cases hl : nodes.lookup nid with
    | none =>
      have e1 : build_tree (f2 + 1) nodes nid = some none := by simp [build_tree, hl]
      have e2 : build_tree (f1 + 1) nodes nid = some none := by simp [build_tree, hl]
      rw [e1, e2]
    | some pn =>
      cases pn with
      | leaf i v =>
        have e1 : build_tree (f2 + 1) nodes nid = some (some (.leaf i v)) := by
          simp [build_tree, hl]
        have e2 : build_tree (f1 + 1) nodes nid = some (some (.leaf i v)) := by
          simp [build_tree, hl]
        rw [e1, e2]
      | split i d f c y n m =>
        have e1 : build_tree (f2 + 1) nodes nid =
            combineChildren i d f c y n m
              (if (nodes.lookup y).isSome then build_tree f2 nodes y else some none)
              (if (nodes.lookup n).isSome then build_tree f2 nodes n else some none) := by
          simp [build_tree, hl]
        have e2 : build_tree (f1 + 1) nodes nid =
            combineChildren i d f c y n m
              (if (nodes.lookup y).isSome then build_tree f1 nodes y else some none)
              (if (nodes.lookup n).isSome then build_tree f1 nodes n else some none) := by
          simp [build_tree, hl]
        rw [e2] at hs
        rw [e1, e2]
        rw [combineChildren_isSome_iff, Bool.and_eq_true] at hs
        have ihy : (build_tree f1 nodes y).isSome →
            build_tree f2 nodes y = build_tree f1 nodes y :=
          fun h => ih (by omega) h
        have ihn : (build_tree f1 nodes n).isSome →
            build_tree f2 nodes n = build_tree f1 nodes n :=
          fun h => ih (by omega) h
        rw [branch_mono ihy hs.1, branch_mono ihn hs.2]

/-- C10: for every flat id-to-node mapping whose yes/no reference graph
reachable from node 0 is acyclic, the recursive tree assembly terminates:
the fuel `nodes.length + 1` chosen by `parse_xgb_tree_dump` (and any larger
fuel) never hits the fuel-exhaustion marker, producing one stable finite
result.  The recursion carries no visited-set or depth guard, so this
acyclicity is exactly the precondition making the assembly total. -/
theorem c10_build_tree_total_on_acyclic (nodes : List (Nat × PNode))
    (acy : AcyclicFrom0 nodes) :
    ∃ r : Option TreeNode, ∀ fuel, nodes.length + 1 ≤ fuel →
      build_tree fuel nodes 0 = some r := by
  have h0 : (build_tree (nodes.length + 1) nodes 0).isSome :=
    build_tree_isSome_of_path acy (nodes.length + 1) PathFrom0.base
      (by rw [List.length_singleton])
  obtain ⟨r, hr⟩ := Option.isSome_iff_exists.mp h0
  refine ⟨r, fun fuel hf => ?_⟩
  rw [build_tree_mono (nodes.length + 1) hf h0, hr]

/-- Witness for C10 on the acyclic three-node dict `exNodesC10`. -/
theorem c10_build_tree_total_on_acyclic_witness :
    ∃ r : Option TreeNode, ∀ fuel, exNodesC10.length + 1 ≤ fuel →
      build_tree fuel exNodesC10 0 = some r := by
  apply c10_build_tree_total_on_acyclic
  have hstep : ∀ a b : Nat, stepTo exNodesC10 a b → a = 0 ∧ (b = 1 ∨ b = 2) := by
    intro a b hab
    unfold stepTo at hab
    by_cases h0 : a = 0
    · subst h0
      refine ⟨rfl, ?_⟩
      have hl : exNodesC10.lookup 0 = some (.split 0 0 ("f0") 10 1 2 1) := rfl
      rw [hl] at hab
      exact hab.1
    · exfalso
      by_cases h1 : a = 1
      · subst h1
        have hl : exNodesC10.lookup 1 = some (.leaf 1 (-3)) := rfl
        rw [hl] at hab
        exact hab
      · by_cases h2 : a = 2
        · subst h2
          have hl : exNodesC10.lookup 2 = some (.leaf 2 4) := rfl
          rw [hl] at hab
          exact hab
        · have e0 : (a == 0) = false := beq_eq_false_iff_ne.mpr h0
          have e1 : (a == 1) = false := beq_eq_false_iff_ne.mpr h1
          have e2 : (a == 2) = false := beq_eq_false_iff_ne.mpr h2
          have hl : exNodesC10.lookup a = none := by
            simp [exNodesC10, List.lookup, e0, e1, e2]
          rw [hl] at hab
          exact hab
  intro p nid h
  cases h with
  | base => decide
  | snoc hp hs =>
    rename_i p' a
    obtain ⟨ha, hb⟩ := hstep a nid hs
    subst ha
    have hp0 : p' = [0] := by
      cases hp with
      | base => rfl
      | snoc hp2 hs2 =>
        rename_i p2 a2
        obtain ⟨ha2, hb2⟩ := hstep a2 0 hs2
        rcases hb2 with hfalse | hfalse <;> simp at hfalse
    subst hp0
    rcases hb with rfl | rfl <;> decide
